import Mathlib

/-!
Shallow embedding of the nhsbsa-prototype-kit-monitor reporting script
(`check-versions.js`, current revision) together with theorems checking the
specification's claims about it.

The script's own functions are translated one-for-one: `getStatus`,
`safeMinVersion`, `compareVersionsDesc`, `getPackageDetails`,
`fetchLatestVersion`, `getAllRepos`, `generateTable`, and the result-building
loop of `run`.  Network effects are made explicit: every fetch outcome is a
value of an inductive type (HTTP error, malformed body, or a parsed document),
and the script's `throw` statements become `Except.error`.

The npm `semver` library calls used by the script (`minVersion`, `valid`,
`eq`, `major`, `rcompare`) are modelled on the grammar subset that actually
occurs in this program's data: plain `MAJOR.MINOR.PATCH` numerals optionally
preceded by one range operator (`^`, `~`, `>=`, `>`, `<=`, `<`, `=`, `v`),
plus the match-anything ranges `""` and `"*"` (prerelease and build metadata
are omitted throughout).  `minVersionEx` models the library call faithfully,
with its three outcomes: a resolved minimum version, `none` for a
well-formed range no version can satisfy, and `Except.error` for the
`TypeError` that `new Range` throws on a syntactically invalid range —
an exception the script never catches (see `getStatusEx` and claim C7).
`minVersion`/`safeMinVersion` are the successful-resolution projection of
that model, consumed by the claims whose hypotheses presuppose a resolvable
version and by the sorting comparator (which, in the program, only ever sees
versions that already survived classification).
-/

namespace KitMonitor

/-- Concrete semantic version, `major.minor.patch`.  The modelled subset of
npm semver omits prerelease and build metadata, which do not occur in the
version data this program handles. -/
structure Semver where
  major : Nat
  minor : Nat
  patch : Nat
deriving DecidableEq, Repr

/-- Longest prefix of decimal digits of a character list, paired with the
remaining characters. -/
def takeDigits : List Char → List Char × List Char
  | [] => ([], [])
  | c :: cs =>
    if c.isDigit then
      let (d, r) := takeDigits cs
      (c :: d, r)
    else ([], c :: cs)

/-- Numeric value of a list of decimal digits. -/
def digitsToNat (l : List Char) : Nat :=
  l.foldl (fun n c => 10 * n + (c.toNat - 48)) 0

/-- Strict parse of a concrete version `X.Y.Z` (three nonempty runs of
digits separated by dots, nothing else).  Models `semver.valid`'s accepted
shape on the subset grammar. -/
def parseXYZChars (l : List Char) : Option Semver :=
  match takeDigits l with
  | (d1, '.' :: r1) =>
    match takeDigits r1 with
    | (d2, '.' :: r2) =>
      match takeDigits r2 with
      | (d3, []) =>
        if d1 ≠ [] ∧ d2 ≠ [] ∧ d3 ≠ [] then
          some ⟨digitsToNat d1, digitsToNat d2, digitsToNat d3⟩
        else none
      | _ => none
    | _ => none
  | _ => none

/-- A single leading range operator of a comparator, or `plain` when the
range is a bare version. -/
inductive RangeOp where
  | caret
  | tilde
  | ge
  | gt
  | le
  | lt
  | eqOp
  | vTag
  | plain
deriving DecidableEq, Repr

/-- Splits one leading range operator off a range expression, yielding the
operator and the remaining characters (the whole input when no operator is
present). -/
def splitRangeOp : List Char → RangeOp × List Char
  | '>' :: '=' :: rest => (.ge, rest)
  | '>' :: rest => (.gt, rest)
  | '<' :: '=' :: rest => (.le, rest)
  | '<' :: rest => (.lt, rest)
  | '^' :: rest => (.caret, rest)
  | '~' :: rest => (.tilde, rest)
  | '=' :: rest => (.eqOp, rest)
  | 'v' :: rest => (.vTag, rest)
  | l => (.plain, l)

/-- Models `semver.minVersion` on the subset grammar, with the library's
three outcomes.  `new Range` throws a `TypeError` on a syntactically invalid
range, modelled as `Except.error`; otherwise the minimum satisfying version
is returned, or `none` when no version can satisfy the range.  On the
subset: `""` and `"*"` match anything, minimum `0.0.0`; `^X.Y.Z`, `~X.Y.Z`,
`>=X.Y.Z`, `=X.Y.Z`, `vX.Y.Z` and bare `X.Y.Z` have minimum `X.Y.Z`;
`>X.Y.Z` has minimum `X.Y.(Z+1)` (the library returns it with a `-0`
prerelease tag, dropped with the rest of prerelease data in this subset);
`<=X.Y.Z` and `<X.Y.Z` have minimum `0.0.0`, except `<0.0.0`, which no
version satisfies (`none`).  Anything else is an invalid range and throws. -/
def minVersionChars (l : List Char) : Except Unit (Option Semver) :=
  if l = [] ∨ l = ['*'] then .ok (some ⟨0, 0, 0⟩)
  else
    match splitRangeOp l with
    | (op, rest) =>
      match parseXYZChars rest with
      | none => .error ()
      | some v =>
        match op with
        | .gt => .ok (some ⟨v.major, v.minor, v.patch + 1⟩)
        | .le => .ok (some ⟨0, 0, 0⟩)
        | .lt => if v = ⟨0, 0, 0⟩ then .ok none else .ok (some ⟨0, 0, 0⟩)
        | _ => .ok (some v)

/-- String-level wrapper for `minVersionChars`: the faithful model of a
`semver.minVersion` call, thrown `TypeError` included. -/
def minVersionEx (s : String) : Except Unit (Option Semver) := minVersionChars s.data

/-- Successful-resolution view of `minVersionEx`, collapsing both failure
modes (thrown `TypeError` and a satisfiable-by-nothing range) to `none`.
The claims whose hypotheses presuppose a resolvable version, and the sorting
comparator (which in the program only sees versions that already survived
classification), consume this view; the throw path is kept distinct in
`minVersionEx` and `getStatusEx`. -/
def minVersion (s : String) : Option Semver :=
  match minVersionEx s with
  | .ok o => o
  | .error _ => none

/-- Models `semver.valid` (restricted to the subset grammar): the string is a
plain concrete version. -/
def semverValid (s : String) : Bool := (parseXYZChars s.data).isSome

/-- Translation of `safeMinVersion` from `check-versions.js`: guard against
absent (`undefined`/`null`) and falsy (empty-string) inputs, then resolve the
minimum version of the range. -/
def safeMinVersion : Option String → Option Semver
  | none => none
  | some s => if s = "" then none else minVersion s

/-- The classification states produced by `getStatus` (identified by the
`text`/`className` pair it returns). -/
inductive Status where
  | upToDate
  | slightlyOutdated
  | outdated
  | unknown
deriving DecidableEq, Repr

/-- Display text of a classification, as in `getStatus`'s returned `text`. -/
def statusText : Status → String
  | .upToDate => "✅ Up-To-Date"
  | .slightlyOutdated => "⚠️ Slightly Outdated"
  | .outdated => "❌ Outdated"
  | .unknown => "❓ Unknown"

/-- CSS class of a classification, as in `getStatus`'s returned `className`. -/
def statusClass : Status → String
  | .upToDate => "uptodate"
  | .slightlyOutdated => "slightly-outdated"
  | .outdated => "outdated"
  | .unknown => "unknown"

/-- Translation of `getStatus` from `check-versions.js`: resolve both the
declared version and the latest version to their minimum satisfying concrete
versions; if either fails, Unknown; if equal, Up-To-Date; if only the major
numbers agree, Slightly Outdated; otherwise Outdated. -/
def getStatus (repoVersion latestVersion : Option String) : Status :=
  match safeMinVersion repoVersion, safeMinVersion latestVersion with
  | some repoMin, some latestMin =>
    if repoMin = latestMin then .upToDate
    else if repoMin.major = latestMin.major then .slightlyOutdated
    else .outdated
  | _, _ => .unknown

/-- Faithful translation of `safeMinVersion`, the thrown `TypeError` of
`semver.minVersion` included: the function guards only absent
(`undefined`/`null`), non-string and falsy (empty-string) inputs; on any
other string it calls `semver.minVersion` with no try/catch, so an invalid
range propagates the exception to the caller. -/
def safeMinVersionEx : Option String → Except Unit (Option Semver)
  | none => .ok none
  | some s => if s = "" then .ok none else minVersionEx s

/-- Faithful translation of `getStatus`, the exception path included: a
`TypeError` from either `safeMinVersion` call propagates uncaught (in `run`
it reaches the top-level `run().catch`, which aborts the process with exit
code 1); only when both calls return does the classification of `getStatus`
happen, with Unknown for a `null` on either side. -/
def getStatusEx (repoVersion latestVersion : Option String) : Except Unit Status :=
  match safeMinVersionEx repoVersion with
  | .error e => .error e
  | .ok repoMin =>
    match safeMinVersionEx latestVersion with
    | .error e => .error e
    | .ok latestMin =>
      .ok (match repoMin, latestMin with
        | some r, some l =>
          if r = l then .upToDate
          else if r.major = l.major then .slightlyOutdated
          else .outdated
        | _, _ => .unknown)

/-- A parsed `package.json` document, restricted to the fields the script
reads.  Absent fields are `none` (JavaScript `undefined`); `dependencies` is
an association list, only the first binding of a name being consulted (JSON
object keys are unique). -/
structure Package where
  name : Option String
  version : Option String
  dependencies : Option (List (String × String))
deriving DecidableEq, Repr

/-- Outcome of fetching a JSON document over HTTP: a non-success status, a
body on which `res.json()` throws (malformed JSON, or a network error from
`fetch` itself), or the parsed document. -/
inductive Fetched (α : Type) where
  | httpError (status : Nat)
  | badBody
  | ok (doc : α)
deriving DecidableEq, Repr

/-- Lookup of a dependency name, with the `pkg.dependencies || {}` and
`pkg.dependencies?.[...]` convention that an absent object has no bindings. -/
def lookupDep (deps : Option (List (String × String))) (key : String) : Option String :=
  match deps with
  | none => none
  | some l => (l.find? (fun p => p.1 == key)).map (fun p => p.2)

/-- JavaScript truthiness of a possibly-absent string: `undefined`, `null`
and the empty string are falsy. -/
def truthy : Option String → Bool
  | none => false
  | some s => s != ""

/-- JavaScript `a || b` on possibly-absent strings: the first operand when
truthy, otherwise the second. -/
def jsOr (a b : Option String) : Option String :=
  if truthy a then a else b

/-- The `nhsKitFromLegacy` value of `getPackageDetails`: the manifest's own
version when the manifest declares itself `nhsuk-prototype-kit` with a valid
concrete version. -/
def legacyNhs (pkg : Package) : Option String :=
  if pkg.name = some "nhsuk-prototype-kit" then
    match pkg.version with
    | some v => if semverValid v then some v else none
    | none => none
  else none

/-- The legacy arm of the GOV detection in `getPackageDetails`. -/
def legacyGov (pkg : Package) : Option String :=
  if pkg.name = some "govuk-prototype-kit" then
    match pkg.version with
    | some v => if semverValid v then some v else none
    | none => none
  else none

/-- The `nhsKitVersion` computed by `getPackageDetails`:
`nhsKitFromDeps || nhsKitFromLegacy`. -/
def detectNhs (pkg : Package) : Option String :=
  jsOr (lookupDep pkg.dependencies "nhsuk-prototype-kit") (legacyNhs pkg)

/-- The `govKitVersion` computed by `getPackageDetails`:
the dependency range if truthy, else the legacy self-declared version. -/
def detectGov (pkg : Package) : Option String :=
  jsOr (lookupDep pkg.dependencies "govuk-prototype-kit") (legacyGov pkg)

/-- The record `getPackageDetails` returns for a relevant manifest. -/
structure PkgDetails where
  name : String
  nhsKitVersion : Option String
  govKitVersion : Option String
  nhsFrontend : Option String
  govFrontend : Option String
deriving DecidableEq, Repr

/-- Translation of `getPackageDetails`: a non-success fetch or a malformed
body yields `null`; a manifest matching neither tracked family yields `null`;
otherwise the detected versions of both families plus the display-only
frontend versions are returned. -/
def getPackageDetails (repoName : String) (fetched : Fetched Package) : Option PkgDetails :=
  match fetched with
  | .httpError _ => none
  | .badBody => none
  | .ok pkg =>
    if !truthy (detectNhs pkg) && !truthy (detectGov pkg) then none
    else some {
      name := repoName
      nhsKitVersion := detectNhs pkg
      govKitVersion := detectGov pkg
      nhsFrontend := lookupDep pkg.dependencies "nhsuk-frontend"
      govFrontend := lookupDep pkg.dependencies "govuk-frontend" }

/-- Failures that abort the whole run (uncaught throws in the script). -/
inductive RunError where
  | fetchFailure (status : Nat)
  | parseFailure
  | apiError (status : Nat) (body : String)
  | nonArrayBody
deriving DecidableEq, Repr

/-- Translation of `fetchLatestVersion`: a non-success response or a body on
which `res.json()` throws aborts the run; otherwise, when the document lists
`nhsuk-prototype-kit` among its dependencies (the self-reference
compatibility shim — this fixed name is checked for both tracked families'
documents), that declared range is returned as-is, else the document's
top-level `version` field. -/
def fetchLatestVersion : Fetched Package → Except RunError (Option String)
  | .httpError status => .error (.fetchFailure status)
  | .badBody => .error .parseFailure
  | .ok pkg =>
    if truthy (lookupDep pkg.dependencies "nhsuk-prototype-kit") then
      .ok (lookupDep pkg.dependencies "nhsuk-prototype-kit")
    else .ok pkg.version

/-- Descriptor of one repository as consumed from the listing API. -/
structure Repo where
  name : String
  defaultBranch : String
  archived : Bool
deriving DecidableEq, Repr

/-- Response of one page of the repository-listing API. -/
inductive PageResp where
  | ok (data : List Repo)
  | nonArray
  | httpError (status : Nat) (body : String)
deriving DecidableEq, Repr

/-- Translation of the pagination loop in `getAllRepos`.  `fuel` bounds the
number of requests the loop may issue, making nontermination observable:
`none` means the loop is still running after issuing `fuel` requests.  On
success the result carries the list of requested page numbers together with
the accumulated repositories, archived ones removed. -/
def getAllReposLoop (pages : Nat → PageResp) :
    Nat → Nat → List Nat → List Repo → Option (Except RunError (List Nat × List Repo))
  | 0, _, _, _ => none
  | fuel + 1, page, reqs, acc =>
    match pages page with
    | .httpError status body => some (.error (.apiError status body))
    | .nonArray => some (.error .nonArrayBody)
    | .ok data =>
      if data.length < 100 then
        some (.ok (reqs ++ [page], acc ++ data.filter (fun r => !r.archived)))
      else
        getAllReposLoop pages fuel (page + 1) (reqs ++ [page])
          (acc ++ data.filter (fun r => !r.archived))

/-- Translation of `getAllRepos`: start at page 1 with nothing accumulated. -/
def getAllRepos (pages : Nat → PageResp) (fuel : Nat) :
    Option (Except RunError (List Nat × List Repo)) :=
  getAllReposLoop pages fuel 1 [] []

/-- One row of the report, as assembled in `run`'s per-repository loop.  The
JavaScript row stores `getStatus`'s `text`/`className` strings; here the
classification is stored once and the two strings are recovered by
`statusText`/`statusClass`. -/
structure Row where
  name : String
  version : Option String
  frontend : Option String
  lastCommitter : Option String
  status : Status
deriving DecidableEq, Repr

/-- Per-repository input to `run`'s loop: the repository name, the outcome of
fetching its manifest, and the display-only last-committer lookup. -/
structure RepoInput where
  repoName : String
  manifest : Fetched Package
  lastCommitter : Option String
deriving DecidableEq, Repr

/-- Translation of `run`'s per-repository loop: a repository whose manifest
inspection returns `null` is skipped; an inspected manifest contributes a row
to the NHS group when its NHS kit version is truthy and, independently, to
the GOV group when its GOV kit version is truthy. -/
def buildResults (nhsLatest govLatest : Option String) :
    List RepoInput → List Row × List Row
  | [] => ([], [])
  | input :: rest =>
    match getPackageDetails input.repoName input.manifest with
    | none => buildResults nhsLatest govLatest rest
    | some pkg =>
      let tails := buildResults nhsLatest govLatest rest
      ((if truthy pkg.nhsKitVersion then
          { name := input.repoName
            version := pkg.nhsKitVersion
            frontend := pkg.nhsFrontend
            lastCommitter := input.lastCommitter
            status := getStatus pkg.nhsKitVersion nhsLatest } :: tails.1
        else tails.1),
       (if truthy pkg.govKitVersion then
          { name := input.repoName
            version := pkg.govKitVersion
            frontend := pkg.govFrontend
            lastCommitter := input.lastCommitter
            status := getStatus pkg.govKitVersion govLatest } :: tails.2
        else tails.2))

/-- Integer result of `semver.compare` on the modelled versions:
lexicographic on (major, minor, patch). -/
def compareSemver (a b : Semver) : Int :=
  if a.major < b.major then -1
  else if b.major < a.major then 1
  else if a.minor < b.minor then -1
  else if b.minor < a.minor then 1
  else if a.patch < b.patch then -1
  else if b.patch < a.patch then 1
  else 0

/-- Models `semver.rcompare`: reverse comparison, for sorting descending. -/
def rcompare (a b : Semver) : Int := compareSemver b a

/-- The branch structure of `compareVersionsDesc` on the two resolved
minima: both unresolvable compare equal, an unresolvable sorts after a
resolvable one, two resolvable ones compare in reverse semver order. -/
def cmpKey : Option Semver → Option Semver → Int
  | none, none => 0
  | none, some _ => 1
  | some _, none => -1
  | some av, some bv => rcompare av bv

/-- Translation of `compareVersionsDesc`: resolve both rows' versions with
`safeMinVersion`, then compare as in `cmpKey`. -/
def compareVersionsDesc (a b : Row) : Int :=
  cmpKey (safeMinVersion a.version) (safeMinVersion b.version)

/-- The Boolean ordering `Array.prototype.sort` induces from the comparator:
`a` may stay before `b` exactly when the comparator is nonpositive. -/
def rowLe (a b : Row) : Bool := decide (compareVersionsDesc a b ≤ 0)

/-- Comparator-based stable sort: the behaviour ECMAScript guarantees for
`Array.prototype.sort` with a consistent comparator.  An element goes before
another exactly when the comparator is nonpositive on the pair, and
comparator-equal elements keep their original relative order. -/
def jsSort (cmp : α → α → Int) (l : List α) : List α :=
  l.mergeSort (fun a b => decide (cmp a b ≤ 0))

/-- The `nhsResults.sort(compareVersionsDesc)` step of `run`. -/
def sortResults (l : List Row) : List Row :=
  jsSort compareVersionsDesc l

/-- Readable form of `compareSemver _ _ ≤ 0`: lexicographic order on
(major, minor, patch). -/
def lexLe (a b : Semver) : Prop :=
  a.major < b.major ∨
    (a.major = b.major ∧
      (a.minor < b.minor ∨ (a.minor = b.minor ∧ a.patch ≤ b.patch)))

/-- Rendering of a JavaScript template interpolation of a possibly-absent
string: `undefined` prints as "undefined". -/
def renderOpt : Option String → String
  | none => "undefined"
  | some s => s

/-- One `<tr>` of the report table, as produced inside `generateTable`. -/
def renderRow (r : Row) : String :=
  "\n          <tr class=\"" ++ statusClass r.status ++
    "\">\n            <td>\n              <a href=\"https://github.com/nhsbsa/" ++
    r.name ++ "\">" ++ r.name ++ "</a>\n              " ++
    (if truthy r.frontend then
      "<br/><small>Frontend: " ++ renderOpt r.frontend ++ "</small>"
    else "") ++ "\n              " ++
    (if truthy r.lastCommitter then
      "<br/><small>Last commit made by: " ++ renderOpt r.lastCommitter ++ "</small>"
    else "") ++
    "\n            </td>\n            <td>" ++ renderOpt r.version ++
    "</td>\n            <td>" ++ statusText r.status ++ "</td>\n          </tr>"

/-- The nonempty-group branch of `generateTable`: heading, latest-version
line, and the table of rows. -/
def sectionHtml (title : String) (results : List Row) (latestVersion : Option String) : String :=
  "\n    <h2>" ++ title ++ "</h2>\n    <p>Latest version: <strong>" ++
    renderOpt latestVersion ++
    "</strong></p>\n    <table>\n      <thead>\n        <tr>\n          <th>Repository</th>\n          <th>Kit Version</th>\n          <th>Status</th>\n        </tr>\n      </thead>\n      <tbody>\n        " ++
    String.join (results.map renderRow) ++
    "\n      </tbody>\n    </table>"

/-- Translation of `generateTable`: an empty group contributes the empty
string; a nonempty group contributes its full section. -/
def generateTable (title : String) (results : List Row) (latestVersion : Option String) : String :=
  if results.length = 0 then "" else sectionHtml title results latestVersion

/-- Manifest that both declares itself `nhsuk-prototype-kit` (valid
self-declared version 4.0.0) and lists `nhsuk-prototype-kit` in its own
dependencies (range ^4.2.0). -/
def pkgBothC2 : Package :=
  { name := some "nhsuk-prototype-kit"
    version := some "4.0.0"
    dependencies := some [("nhsuk-prototype-kit", "^4.2.0")] }

/-- Manifest matching both tracked families: declares itself
`nhsuk-prototype-kit` and depends on `govuk-prototype-kit`. -/
def pkgBothFamilies : Package :=
  { name := some "nhsuk-prototype-kit"
    version := some "4.2.0"
    dependencies := some [("govuk-prototype-kit", "^13.1.0")] }

/-- Upstream kit manifest using the self-reference pattern: it lists
`nhsuk-prototype-kit` among its own dependencies. -/
def pkgSelfRef : Package :=
  { name := some "nhsuk-prototype-kit"
    version := some "9.9.9"
    dependencies := some [("nhsuk-prototype-kit", "^4.2.0")] }

/-- An unarchived repository used by concrete pagination scenarios. -/
def repoLive : Repo := { name := "repo-a", defaultBranch := "main", archived := false }

/-- An archived repository used by concrete pagination scenarios. -/
def repoArchived : Repo := { name := "old-repo", defaultBranch := "main", archived := true }

/-- Page 1 of the concrete enumeration scenario: 100 entries, one archived. -/
def pageOneW : List Repo := List.replicate 99 repoLive ++ [repoArchived]

/-- Page 2 of the concrete enumeration scenario: 40 entries. -/
def pageTwoW : List Repo := List.replicate 40 repoLive

/-- Listing API of the concrete enumeration scenario. -/
def pagesW : Nat → PageResp :=
  fun p => if p = 1 then .ok pageOneW else if p = 2 then .ok pageTwoW else .ok []

/-- Page contents of the concrete enumeration scenario, as a function. -/
def dW : Nat → List Repo :=
  fun p => if p = 1 then pageOneW else if p = 2 then pageTwoW else []

/-- Listing API each of whose pages is full (exactly 100 entries). -/
def pagesFullW : Nat → PageResp := fun _ => .ok (List.replicate 100 repoLive)

/-- Listing API whose first page is already short (empty). -/
def pagesShortW : Nat → PageResp := fun _ => .ok []

/-- Report row with a given declared version, for concrete sort scenarios. -/
def rowW (v : String) : Row :=
  { name := "r", version := some v, frontend := none, lastCommitter := none,
    status := Status.upToDate }

/-- Concrete group of classified rows: two resolvable versions in descending
order followed by one unresolvable version. -/
def rowsW : List Row := [rowW "4.3.0", rowW "4.1.0", rowW "bad"]

theorem takeDigits_fst_ne_nil {l : List Char} (h : (takeDigits l).1 ≠ []) :
    ∃ c cs, l = c :: cs ∧ c.isDigit = true := by
  cases l with
  | nil => simp [takeDigits] at h
  | cons c cs =>
    by_cases hc : c.isDigit
    · exact ⟨c, cs, rfl, hc⟩
    · simp [takeDigits, hc] at h

theorem splitRangeOp_of_digit {c : Char} {cs : List Char} (h : c.isDigit = true) :
    splitRangeOp (c :: cs) = (RangeOp.plain, c :: cs) := by
  unfold splitRangeOp
  split
  all_goals (first
    | rfl
    | (rename_i heq
       injection heq with h1 h2
       subst h1
       exact absurd h (by decide)))

theorem parseXYZChars_fst_digit {l : List Char} {v : Semver}
    (h : parseXYZChars l = some v) : ∃ c cs, l = c :: cs ∧ c.isDigit = true := by
  cases l with
  | nil =>
    rw [show parseXYZChars [] = none from by decide] at h
    exact Option.noConfusion h
  | cons c cs =>
    refine ⟨c, cs, rfl, ?_⟩
    by_cases hc : c.isDigit = true
    · exact hc
    · exfalso
      have htd : takeDigits (c :: cs) = ([], c :: cs) := by
        simp [takeDigits, hc]
      unfold parseXYZChars at h
      rw [htd] at h
      split at h
      · rename_i d1 r1 heq
        simp only [Prod.mk.injEq] at heq
        obtain ⟨h1, -⟩ := heq
        subst h1
        split at h
        · split at h
          · simp at h
          · exact Option.noConfusion h
        · exact Option.noConfusion h
      · exact Option.noConfusion h

/-- A string that strictly parses as a concrete version resolves (as a range)
to exactly that version, without throwing: `semver.minVersion` is the
identity on concrete versions. -/
theorem minVersionChars_of_parseXYZChars {l : List Char} {v : Semver}
    (h : parseXYZChars l = some v) : minVersionChars l = .ok (some v) := by
  obtain ⟨c, cs, rfl, hdig⟩ := parseXYZChars_fst_digit h
  unfold minVersionChars
  rw [if_neg, splitRangeOp_of_digit hdig]
  · simp only [h]
  · rintro (habs | habs)
    · exact (List.cons_ne_nil _ _) habs
    · rw [show c = '*' from (List.cons.injEq _ _ _ _ ▸ habs).1] at hdig
      exact absurd hdig (by decide)

theorem minVersion_of_parseXYZChars {s : String} {v : Semver}
    (h : parseXYZChars s.data = some v) : minVersion s = some v := by
  unfold minVersion minVersionEx
  rw [minVersionChars_of_parseXYZChars h]

theorem safeMinVersion_of_parseXYZChars {s : String} {v : Semver}
    (h : parseXYZChars s.data = some v) : safeMinVersion (some s) = some v := by
  have hne : s ≠ "" := by
    intro habs
    subst habs
    rw [show parseXYZChars "".data = none from by decide] at h
    exact Option.noConfusion h
  simp only [safeMinVersion, if_neg hne]
  exact minVersion_of_parseXYZChars h

/-- C1: for every declared version string and (concrete) latest version
string, `getStatus` resolves the declared value to its minimum satisfying
concrete version and classifies Up-To-Date when that minimum equals the
latest version exactly, Slightly Outdated when it differs from latest but has
the same major number, and Outdated when its major number differs. -/
theorem c1_status_classifier_three_tier (d l : String) (dm lv : Semver)
    (hd : safeMinVersion (some d) = some dm)
    (hl : parseXYZChars l.data = some lv) :
    getStatus (some d) (some l) =
      (if dm = lv then Status.upToDate
       else if dm.major = lv.major then Status.slightlyOutdated
       else Status.outdated) := by
  have hl' : safeMinVersion (some l) = some lv := safeMinVersion_of_parseXYZChars hl
  simp [getStatus, hd, hl']

theorem c1_status_classifier_three_tier_witness :
    safeMinVersion (some "^4.1.2") = some ⟨4, 1, 2⟩ ∧
    parseXYZChars ("4.3.0".data) = some ⟨4, 3, 0⟩ ∧
    getStatus (some "^4.1.2") (some "4.3.0") = Status.slightlyOutdated :=
  ⟨by decide, by decide,
    (c1_status_classifier_three_tier "^4.1.2" "4.3.0" ⟨4, 1, 2⟩ ⟨4, 3, 0⟩
      (by decide) (by decide)).trans (by decide)⟩

theorem safeMinVersion_collapse (v : Option String) :
    safeMinVersion v =
      (match safeMinVersionEx v with
        | .ok o => o
        | .error _ => none) := by
  rcases v with _ | s
  · rfl
  · by_cases hs : s = "" <;> simp [safeMinVersion, safeMinVersionEx, minVersion, hs]

/-- Agreement of the two views of the classifier: whenever the faithful
classifier returns (does not throw), it returns exactly what `getStatus`
computes on the collapsed view. -/
theorem getStatus_agrees_with_getStatusEx (d l : Option String) (s : Status)
    (h : getStatusEx d l = .ok s) : getStatus d l = s := by
  unfold getStatusEx at h
  unfold getStatus
  rw [safeMinVersion_collapse d, safeMinVersion_collapse l]
  rcases hdx : safeMinVersionEx d with e | dm
  · simp_all
  · rcases hlx : safeMinVersionEx l with e' | lm
    · simp_all
    · rcases dm with _ | r <;> rcases lm with _ | lv <;> simp_all

/-- C7: the claim fails on the code.  `semver.minVersion` throws a
`TypeError` on a syntactically invalid range (its `new Range` call has no
guard), and neither `safeMinVersion` nor `getStatus` catches it, so
classifying the malformed declared version "not-a-version" aborts the run
(via the top-level `run().catch`, exit code 1) instead of returning Unknown.
Only absent, non-string or empty declared values, and well-formed ranges no
version satisfies, take the graceful Unknown path. -/
theorem c7_unparseable_version_throws :
    minVersionEx "not-a-version" = .error () ∧
    getStatusEx (some "not-a-version") (some "4.3.0") = .error () ∧
    getStatusEx none (some "4.3.0") = .ok Status.unknown ∧
    getStatusEx (some "") (some "4.3.0") = .ok Status.unknown ∧
    getStatusEx (some "<0.0.0") (some "4.3.0") = .ok Status.unknown :=
  ⟨by rfl, by rfl, by rfl, by rfl, by rfl⟩

theorem truthy_some_iff {s : String} : truthy (some s) = true ↔ s ≠ "" := by
  simp [truthy]

theorem semverValid_ne_empty {v : String} (h : semverValid v = true) : v ≠ "" := by
  intro habs
  subst habs
  exact absurd h (by decide)

theorem detectNhs_of_dep {pkg : Package} {range : String}
    (hdep : lookupDep pkg.dependencies "nhsuk-prototype-kit" = some range)
    (hr : range ≠ "") : detectNhs pkg = some range := by
  have ht : truthy (some range) = true := truthy_some_iff.mpr hr
  simp [detectNhs, jsOr, hdep, ht]

theorem detectNhs_of_no_dep {pkg : Package}
    (hdep : lookupDep pkg.dependencies "nhsuk-prototype-kit" = none) :
    detectNhs pkg = legacyNhs pkg := by
  simp [detectNhs, jsOr, hdep, truthy]

theorem detectGov_of_dep {pkg : Package} {range : String}
    (hdep : lookupDep pkg.dependencies "govuk-prototype-kit" = some range)
    (hr : range ≠ "") : detectGov pkg = some range := by
  have ht : truthy (some range) = true := truthy_some_iff.mpr hr
  simp [detectGov, jsOr, hdep, ht]

theorem detectGov_of_no_dep {pkg : Package}
    (hdep : lookupDep pkg.dependencies "govuk-prototype-kit" = none) :
    detectGov pkg = legacyGov pkg := by
  simp [detectGov, jsOr, hdep, truthy]

theorem getPackageDetails_ok_of_truthy {pkg : Package} (repoName : String)
    (h : truthy (detectNhs pkg) = true ∨ truthy (detectGov pkg) = true) :
    getPackageDetails repoName (.ok pkg) =
      some { name := repoName
             nhsKitVersion := detectNhs pkg
             govKitVersion := detectGov pkg
             nhsFrontend := lookupDep pkg.dependencies "nhsuk-frontend"
             govFrontend := lookupDep pkg.dependencies "govuk-frontend" } := by
  unfold getPackageDetails
  rcases h with h | h <;> simp [h]

/-- C2 counterexample: on a manifest that both declares itself
`nhsuk-prototype-kit` with a valid self-declared version (4.0.0) and lists
`nhsuk-prototype-kit` in its dependency list (range ^4.2.0), the Manifest
Inspector reports the dependency range, not the self-declared version — so
the self-declared name/version is not applied first, refuting the claimed
priority order. -/
theorem c2_counterexample :
    (getPackageDetails "prototype-repo" (.ok pkgBothC2)).map (fun r => r.nhsKitVersion) =
      some (some "^4.2.0") ∧
    ("^4.2.0" : String) ≠ "4.0.0" ∧
    pkgBothC2.name = some "nhsuk-prototype-kit" ∧
    pkgBothC2.version = some "4.0.0" ∧ semverValid "4.0.0" = true :=
  ⟨by decide, by decide, rfl, rfl, by decide⟩

/-- C2 amended: the Manifest Inspector's priority order is the reverse of
the claimed one.  For every manifest matching a tracked family both by its
own declared name (with a valid self-declared version) and through its
dependency list, the dependency-list range is used as the declared version;
the self-declared version is used only when the dependency entry is absent. -/
theorem c2_dependency_range_priority (repoName : String) :
    (∀ pkg v range, pkg.name = some "nhsuk-prototype-kit" → pkg.version = some v →
      semverValid v = true →
      lookupDep pkg.dependencies "nhsuk-prototype-kit" = some range → range ≠ "" →
      ∃ r, getPackageDetails repoName (.ok pkg) = some r ∧ r.nhsKitVersion = some range) ∧
    (∀ pkg v, pkg.name = some "nhsuk-prototype-kit" → pkg.version = some v →
      semverValid v = true →
      lookupDep pkg.dependencies "nhsuk-prototype-kit" = none →
      ∃ r, getPackageDetails repoName (.ok pkg) = some r ∧ r.nhsKitVersion = some v) ∧
    (∀ pkg v range, pkg.name = some "govuk-prototype-kit" → pkg.version = some v →
      semverValid v = true →
      lookupDep pkg.dependencies "govuk-prototype-kit" = some range → range ≠ "" →
      ∃ r, getPackageDetails repoName (.ok pkg) = some r ∧ r.govKitVersion = some range) ∧
    (∀ pkg v, pkg.name = some "govuk-prototype-kit" → pkg.version = some v →
      semverValid v = true →
      lookupDep pkg.dependencies "govuk-prototype-kit" = none →
      ∃ r, getPackageDetails repoName (.ok pkg) = some r ∧ r.govKitVersion = some v) := by
  refine ⟨?_, ?_, ?_, ?_⟩
  · intro pkg v range hname hv hval hdep hr
    have hdet := detectNhs_of_dep hdep hr
    have hres := getPackageDetails_ok_of_truthy repoName
      (Or.inl (by rw [hdet]; exact truthy_some_iff.mpr hr))
    exact ⟨_, hres, hdet⟩
  · intro pkg v hname hv hval hdep
    have hleg : legacyNhs pkg = some v := by simp [legacyNhs, hname, hv, hval]
    have hdet : detectNhs pkg = some v := (detectNhs_of_no_dep hdep).trans hleg
    have hres := getPackageDetails_ok_of_truthy repoName
      (Or.inl (by rw [hdet]; exact truthy_some_iff.mpr (semverValid_ne_empty hval)))
    exact ⟨_, hres, hdet⟩
  · intro pkg v range hname hv hval hdep hr
    have hdet := detectGov_of_dep hdep hr
    have hres := getPackageDetails_ok_of_truthy repoName
      (Or.inr (by rw [hdet]; exact truthy_some_iff.mpr hr))
    exact ⟨_, hres, hdet⟩
  · intro pkg v hname hv hval hdep
    have hleg : legacyGov pkg = some v := by simp [legacyGov, hname, hv, hval]
    have hdet : detectGov pkg = some v := (detectGov_of_no_dep hdep).trans hleg
    have hres := getPackageDetails_ok_of_truthy repoName
      (Or.inr (by rw [hdet]; exact truthy_some_iff.mpr (semverValid_ne_empty hval)))
    exact ⟨_, hres, hdet⟩

theorem c2_dependency_range_priority_witness :
    ∃ r, getPackageDetails "prototype-repo" (.ok pkgBothC2) = some r ∧
      r.nhsKitVersion = some "^4.2.0" :=
  (c2_dependency_range_priority "prototype-repo").1 pkgBothC2 "4.0.0" "^4.2.0"
    rfl rfl (by decide) (by decide) (by decide)

/-- C3: the two tracked families are detected independently.  Whenever at
least one family's detection is truthy the Manifest Inspector returns a
record carrying both families' detections, each computed from that family's
own fields alone — matching one family never suppresses the other. -/
theorem c3_both_families_independent (repoName : String) (pkg : Package)
    (h : truthy (detectNhs pkg) = true ∨ truthy (detectGov pkg) = true) :
    getPackageDetails repoName (.ok pkg) =
      some { name := repoName
             nhsKitVersion := detectNhs pkg
             govKitVersion := detectGov pkg
             nhsFrontend := lookupDep pkg.dependencies "nhsuk-frontend"
             govFrontend := lookupDep pkg.dependencies "govuk-frontend" } :=
  getPackageDetails_ok_of_truthy repoName h

theorem c3_both_families_independent_witness :
    getPackageDetails "repo-a" (.ok pkgBothFamilies) =
      some { name := "repo-a"
             nhsKitVersion := some "4.2.0"
             govKitVersion := some "^13.1.0"
             nhsFrontend := none
             govFrontend := none } :=
  (c3_both_families_independent "repo-a" pkgBothFamilies (Or.inl (by decide))).trans
    (by decide)

/-- C6 counterexample: on an upstream manifest whose dependencies list
`nhsuk-prototype-kit` with the range ^4.2.0, the Version Source Resolver
returns the raw range string "^4.2.0" — not the resolved minimum of that
range (4.2.0, a different string; indeed the returned string is not a
concrete version at all). -/
theorem c6_counterexample :
    fetchLatestVersion (.ok pkgSelfRef) = .ok (some "^4.2.0") ∧
    minVersion "^4.2.0" = some ⟨4, 2, 0⟩ ∧
    parseXYZChars "^4.2.0".data = none ∧
    ("^4.2.0" : String) ≠ "4.2.0" :=
  ⟨by rfl, by decide, by decide, by decide⟩

/-- C6 amended: when the document lists `nhsuk-prototype-kit` among its
dependencies with a truthy range, the resolver returns that declared range
string itself (its resolved minimum is only taken later, by the Status
Classifier); otherwise it returns the document's top-level version field.
The dependency name checked is fixed to `nhsuk-prototype-kit` for both
tracked families' documents. -/
theorem c6_raw_range_returned (pkg : Package) :
    (∀ range, lookupDep pkg.dependencies "nhsuk-prototype-kit" = some range → range ≠ "" →
      fetchLatestVersion (.ok pkg) = .ok (some range)) ∧
    (truthy (lookupDep pkg.dependencies "nhsuk-prototype-kit") = false →
      fetchLatestVersion (.ok pkg) = .ok pkg.version) := by
  constructor
  · intro range hdep hr
    have ht : truthy (some range) = true := truthy_some_iff.mpr hr
    simp [fetchLatestVersion, hdep, ht]
  · intro h
    simp [fetchLatestVersion, h]

theorem c6_raw_range_returned_witness :
    fetchLatestVersion (.ok pkgSelfRef) = .ok (some "^4.2.0") :=
  (c6_raw_range_returned pkgSelfRef).1 "^4.2.0" (by decide) (by decide)

theorem buildResults_skip (nhsLatest govLatest : Option String)
    (pre post : List RepoInput) (x : RepoInput)
    (hx : getPackageDetails x.repoName x.manifest = none) :
    buildResults nhsLatest govLatest (pre ++ x :: post) =
      buildResults nhsLatest govLatest (pre ++ post) := by
  induction pre with
  | nil => simp [buildResults, hx]
  | cons y ys ih =>
    rcases hy : getPackageDetails y.repoName y.manifest with _ | pkg <;>
      simp [buildResults, hy, ih]

/-- C8: failures while inspecting an individual repository's manifest are
non-fatal.  A non-success fetch or a malformed body makes `getPackageDetails`
return `null` — the embedding is a total function into `Option`, so no such
input can abort the run — and `run`'s loop then omits exactly that repository
from the report.  By contrast the latest-version lookups and the repository
listing abort the run with an error. -/
theorem c8_manifest_failures_nonfatal :
    (∀ repoName status, getPackageDetails repoName (.httpError status) = none) ∧
    (∀ repoName, getPackageDetails repoName .badBody = none) ∧
    (∀ nhsLatest govLatest pre post repoName status committer,
      buildResults nhsLatest govLatest
        (pre ++ { repoName := repoName, manifest := .httpError status,
                  lastCommitter := committer } :: post) =
        buildResults nhsLatest govLatest (pre ++ post)) ∧
    (∀ nhsLatest govLatest pre post repoName committer,
      buildResults nhsLatest govLatest
        (pre ++ { repoName := repoName, manifest := .badBody,
                  lastCommitter := committer } :: post) =
        buildResults nhsLatest govLatest (pre ++ post)) ∧
    (∀ status, fetchLatestVersion (.httpError status) = .error (.fetchFailure status)) ∧
    (fetchLatestVersion .badBody = .error .parseFailure) ∧
    (∀ pages fuel status body, pages 1 = .httpError status body →
      getAllRepos pages (fuel + 1) = some (.error (.apiError status body))) := by
  refine ⟨fun _ _ => rfl, fun _ => rfl, ?_, ?_, fun _ => rfl, rfl, ?_⟩
  · intro nhsLatest govLatest pre post repoName status committer
    exact buildResults_skip nhsLatest govLatest pre post _ rfl
  · intro nhsLatest govLatest pre post repoName committer
    exact buildResults_skip nhsLatest govLatest pre post _ rfl
  · intro pages fuel status body h
    simp [getAllRepos, getAllReposLoop, h]

theorem c8_manifest_failures_nonfatal_witness :
    getAllRepos (fun _ => .httpError 500 "server error") 1 =
      some (.error (.apiError 500 "server error")) :=
  c8_manifest_failures_nonfatal.2.2.2.2.2.2
    (fun _ => .httpError 500 "server error") 0 500 "server error" rfl

theorem getAllReposLoop_spec (pages : Nat → PageResp) (d : Nat → List Repo) :
    ∀ (n p fuel : Nat) (reqs : List Nat) (acc : List Repo),
      (∀ i, i ≤ n → pages (p + i) = .ok (d (p + i))) →
      (∀ i, i < n → 100 ≤ (d (p + i)).length) →
      (d (p + n)).length < 100 →
      n < fuel →
      getAllReposLoop pages fuel p reqs acc =
        some (.ok (reqs ++ List.range' p (n + 1),
          acc ++ ((List.range' p (n + 1)).flatMap d).filter (fun r => !r.archived))) := by
  intro n
  induction n with
  | zero =>
    intro p fuel reqs acc hok hfull hshort hfuel
    obtain ⟨f, rfl⟩ : ∃ f, fuel = f + 1 := ⟨fuel - 1, by omega⟩
    have h0 : pages p = .ok (d p) := by simpa using hok 0 (by omega)
    have hs : (d p).length < 100 := by simpa using hshort
    simp [getAllReposLoop, h0, hs, List.range'_succ]
  | succ m ih =>
    intro p fuel reqs acc hok hfull hshort hfuel
    obtain ⟨f, rfl⟩ : ∃ f, fuel = f + 1 := ⟨fuel - 1, by omega⟩
    have h0 : pages p = .ok (d p) := by simpa using hok 0 (by omega)
    have hfull0 : 100 ≤ (d p).length := by simpa using hfull 0 (by omega)
    have hnotlt : ¬ (d p).length < 100 := by omega
    have ih' := ih (p + 1) f (reqs ++ [p]) (acc ++ (d p).filter (fun r => !r.archived))
      (fun i hi => by
        have h := hok (i + 1) (by omega)
        rw [show p + 1 + i = p + (i + 1) from by omega]
        exact h)
      (fun i hi => by
        have h := hfull (i + 1) (by omega)
        rw [show p + 1 + i = p + (i + 1) from by omega]
        exact h)
      (by
        rw [show p + 1 + m = p + (m + 1) from by omega]
        exact hshort)
      (by omega)
    simp only [getAllReposLoop, h0]
    rw [if_neg hnotlt, ih']
    simp [List.range'_succ, List.append_assoc]

/-- C5: the Repository Enumerator requests pages of size 100 in increasing
order starting at page 1, stops after the first page with fewer than 100
entries, and returns all fetched repositories with archived ones removed.
The request trace is exactly `[1, ..., k]` where page `k` is the first short
page, and the result is the concatenation of all fetched pages filtered of
archived entries. -/
theorem c5_enumerator_pagination (pages : Nat → PageResp) (d : Nat → List Repo)
    (k fuel : Nat) (hk : 1 ≤ k) (hfuel : k ≤ fuel)
    (hok : ∀ i, 1 ≤ i → i ≤ k → pages i = .ok (d i))
    (hfull : ∀ i, 1 ≤ i → i < k → 100 ≤ (d i).length)
    (hshort : (d k).length < 100) :
    getAllRepos pages fuel =
      some (.ok (List.range' 1 k,
        ((List.range' 1 k).flatMap d).filter (fun r => !r.archived))) := by
  obtain ⟨n, rfl⟩ : ∃ n, k = n + 1 := ⟨k - 1, by omega⟩
  have h := getAllReposLoop_spec pages d n 1 fuel [] []
    (fun i hi => hok (1 + i) (by omega) (by omega))
    (fun i hi => hfull (1 + i) (by omega) (by omega))
    (by rw [show (1 : Nat) + n = n + 1 from by omega]; exact hshort)
    (by omega)
  simpa using h

theorem c5_enumerator_pagination_witness :
    getAllRepos pagesW 2 =
      some (.ok ([1, 2],
        List.replicate 99 repoLive ++ List.replicate 40 repoLive)) := by
  have h := c5_enumerator_pagination pagesW dW 2 2 (by omega) (by omega)
    (fun i h1 h2 => by interval_cases i <;> rfl)
    (fun i h1 h2 => by
      have hi : i = 1 := by omega
      subst hi
      decide)
    (by decide)
  exact h.trans (by rfl)

theorem getAllReposLoop_nonterm (pages : Nat → PageResp)
    (h : ∀ p, 1 ≤ p → ∃ dta, pages p = .ok dta ∧ dta.length = 100) :
    ∀ fuel p reqs acc, 1 ≤ p → getAllReposLoop pages fuel p reqs acc = none := by
  intro fuel
  induction fuel with
  | zero => intro p reqs acc hp; rfl
  | succ f ih =>
    intro p reqs acc hp
    obtain ⟨dta, hd, hlen⟩ := h p hp
    simp only [getAllReposLoop, hd]
    rw [if_neg (by omega)]
    exact ih (p + 1) _ _ (by omega)

/-- C10: the pagination loop terminates exactly when some page is short.  If
page `k` is the first page with fewer than 100 entries, the loop finishes
within `k` requests (one request per page up to and including page `k`);
if every page returns exactly 100 entries the loop never finishes, however
much fuel it is given. -/
theorem c10_pagination_termination :
    (∀ (pages : Nat → PageResp) (d : Nat → List Repo) (k fuel : Nat),
      1 ≤ k → k ≤ fuel →
      (∀ i, 1 ≤ i → i ≤ k → pages i = .ok (d i)) →
      (∀ i, 1 ≤ i → i < k → 100 ≤ (d i).length) →
      (d k).length < 100 →
      ∃ reqs repos, getAllRepos pages fuel = some (.ok (reqs, repos)) ∧
        reqs.length = k) ∧
    (∀ pages : Nat → PageResp,
      (∀ p, 1 ≤ p → ∃ dta, pages p = .ok dta ∧ dta.length = 100) →
      ∀ fuel, getAllRepos pages fuel = none) := by
  constructor
  · intro pages d k fuel hk hfuel hok hfull hshort
    obtain ⟨n, rfl⟩ : ∃ n, k = n + 1 := ⟨k - 1, by omega⟩
    have h := getAllReposLoop_spec pages d n 1 fuel [] []
      (fun i hi => hok (1 + i) (by omega) (by omega))
      (fun i hi => hfull (1 + i) (by omega) (by omega))
      (by rw [show (1 : Nat) + n = n + 1 from by omega]; exact hshort)
      (by omega)
    exact ⟨_, _, by simpa using h, by simp⟩
  · intro pages h fuel
    exact getAllReposLoop_nonterm pages h fuel 1 [] [] (by omega)

theorem compareSemver_nonpos_iff (a b : Semver) :
    compareSemver a b ≤ 0 ↔ lexLe a b := by
  unfold compareSemver lexLe
  split_ifs <;> omega

theorem cmpKey_trans (x y z : Option Semver)
    (h1 : cmpKey x y ≤ 0) (h2 : cmpKey y z ≤ 0) : cmpKey x z ≤ 0 := by
  rcases x with _ | av <;> rcases y with _ | bv <;> rcases z with _ | cv <;>
    simp only [cmpKey, rcompare] at h1 h2 ⊢ <;> try omega
  rw [compareSemver_nonpos_iff] at h1 h2 ⊢
  unfold lexLe at h1 h2 ⊢
  omega

theorem cmpKey_total (x y : Option Semver) :
    cmpKey x y ≤ 0 ∨ cmpKey y x ≤ 0 := by
  rcases x with _ | av <;> rcases y with _ | bv <;>
    simp only [cmpKey, rcompare] <;> try omega
  rw [compareSemver_nonpos_iff, compareSemver_nonpos_iff]
  unfold lexLe
  omega

theorem cmpKey_self (x : Option Semver) : cmpKey x x = 0 := by
  rcases x with _ | v <;> simp [cmpKey, rcompare, compareSemver]

theorem rowLe_trans (a b c : Row) (h1 : rowLe a b) (h2 : rowLe b c) :
    rowLe a c := by
  simp only [rowLe, compareVersionsDesc, decide_eq_true_eq] at h1 h2 ⊢
  exact cmpKey_trans _ _ _ h1 h2

theorem rowLe_total (a b : Row) : rowLe a b || rowLe b a := by
  rcases cmpKey_total (safeMinVersion a.version) (safeMinVersion b.version) with h | h <;>
    simp [rowLe, compareVersionsDesc, h]

theorem pairwise_of_mem_class {α : Type} {R : α → α → Prop} :
    ∀ L : List α, (∀ x ∈ L, ∀ y ∈ L, R x y) → L.Pairwise R
  | [], _ => List.Pairwise.nil
  | a :: l, h =>
    List.Pairwise.cons (fun b hb => h a (List.mem_cons_self a l) b (List.mem_cons_of_mem a hb))
      (pairwise_of_mem_class l
        (fun x hx y hy => h x (List.mem_cons_of_mem a hx) y (List.mem_cons_of_mem a hy)))

/-- C4: sorting a group of classified rows with `compareVersionsDesc` is a
permutation that orders resolvable rows by resolved version descending (for
every earlier/later pair of resolvable rows, the later one's resolved version
is at most the earlier one's), places every unresolvable row after all
resolvable ones, and keeps the original relative order within every class of
rows whose versions resolve to the same value (including the class of
unresolvable rows). -/
theorem c4_sort_descending_stable (rows : List Row) :
    (sortResults rows).Perm rows ∧
    (sortResults rows).Pairwise
      (fun a b => ∀ u w, safeMinVersion a.version = some u →
        safeMinVersion b.version = some w → lexLe w u) ∧
    (sortResults rows).Pairwise
      (fun a b => safeMinVersion a.version = none → safeMinVersion b.version = none) ∧
    (∀ o : Option Semver,
      (sortResults rows).filter (fun r => decide (safeMinVersion r.version = o)) =
        rows.filter (fun r => decide (safeMinVersion r.version = o))) := by
  have hsort : sortResults rows = rows.mergeSort rowLe := rfl
  have hperm : (rows.mergeSort rowLe).Perm rows := List.mergeSort_perm rows rowLe
  have hpair : (rows.mergeSort rowLe).Pairwise (fun a b => rowLe a b) :=
    List.sorted_mergeSort rowLe_trans rowLe_total rows
  refine ⟨hsort ▸ hperm, ?_, ?_, ?_⟩
  · rw [hsort]
    refine hpair.imp ?_
    intro a b h u w hu hw
    simp only [rowLe, compareVersionsDesc, decide_eq_true_eq] at h
    rw [hu, hw] at h
    simp only [cmpKey, rcompare] at h
    exact (compareSemver_nonpos_iff _ _).mp h
  · rw [hsort]
    refine hpair.imp ?_
    intro a b h hnone
    simp only [rowLe, compareVersionsDesc, decide_eq_true_eq] at h
    rw [hnone] at h
    rcases hb : safeMinVersion b.version with _ | v
    · rfl
    · rw [hb] at h
      simp [cmpKey] at h
  · intro o
    rw [hsort]
    have hmem : ∀ x ∈ rows.filter (fun r => decide (safeMinVersion r.version = o)),
        safeMinVersion x.version = o := by
      intro x hx
      have := (List.mem_filter.mp hx).2
      simpa using this
    have hpairF : (rows.filter (fun r => decide (safeMinVersion r.version = o))).Pairwise
        (fun a b => rowLe a b) := by
      apply pairwise_of_mem_class
      intro x hx y hy
      have hxk := hmem x hx
      have hyk := hmem y hy
      simp only [rowLe, compareVersionsDesc, decide_eq_true_eq]
      rw [hxk, hyk, cmpKey_self]
    have hsub : List.Sublist (rows.filter (fun r => decide (safeMinVersion r.version = o)))
        (rows.mergeSort rowLe) :=
      List.sublist_mergeSort rowLe_trans rowLe_total hpairF (List.filter_sublist rows)
    have hsub2 : List.Sublist (rows.filter (fun r => decide (safeMinVersion r.version = o)))
        ((rows.mergeSort rowLe).filter (fun r => decide (safeMinVersion r.version = o))) := by
      have h1 := hsub.filter (fun r => decide (safeMinVersion r.version = o))
      rwa [List.filter_eq_self.mpr (fun a ha => by simpa using hmem a ha)] at h1
    have hlen : ((rows.mergeSort rowLe).filter
        (fun r => decide (safeMinVersion r.version = o))).length =
        (rows.filter (fun r => decide (safeMinVersion r.version = o))).length :=
      (hperm.filter _).length_eq
    exact (hsub2.eq_of_length hlen.symm).symm

theorem c4_sort_descending_stable_witness :
    lexLe ⟨4, 1, 0⟩ ⟨4, 3, 0⟩ ∧
    (sortResults rowsW).filter (fun r => decide (safeMinVersion r.version = none)) =
      rowsW.filter (fun r => decide (safeMinVersion r.version = none)) := by
  have h := (c4_sort_descending_stable rowsW).2.1
  have hev : sortResults rowsW = rowsW :=
    List.mergeSort_of_sorted (by decide)
  rw [hev] at h
  refine ⟨?_, (c4_sort_descending_stable rowsW).2.2.2 none⟩
  have h01 := (List.pairwise_cons.mp h).1 (rowW "4.1.0") (by simp [rowsW])
  exact h01 ⟨4, 3, 0⟩ ⟨4, 1, 0⟩ (by decide) (by decide)

theorem c10_pagination_termination_witness :
    (∃ reqs repos, getAllRepos pagesShortW 1 = some (.ok (reqs, repos)) ∧
      reqs.length = 1) ∧
    getAllRepos pagesFullW 5 = none :=
  ⟨c10_pagination_termination.1 pagesShortW (fun _ => []) 1 1 (by omega) (by omega)
      (fun i h1 h2 => rfl) (fun i h1 h2 => by omega) (by decide),
   c10_pagination_termination.2 pagesFullW
      (fun p hp => ⟨List.replicate 100 repoLive, rfl, by simp⟩) 5⟩

theorem sectionHtml_ne_empty (title : String) (results : List Row)
    (latestVersion : Option String) : sectionHtml title results latestVersion ≠ "" := by
  intro habs
  have h := congrArg String.length habs
  rw [sectionHtml] at h
  simp only [String.length_append] at h
  rw [show ("\n    <h2>" : String).length = 9 from by decide,
    show ("" : String).length = 0 from rfl] at h
  omega

/-- C9: the Report Renderer emits a group's heading, latest-version line and
table only for nonempty groups: `generateTable` returns the empty string
exactly when the group has zero entries, and returns the full section (which
starts with the heading and the latest-version line) otherwise. -/
theorem c9_empty_group_no_section (title : String) (latestVersion : Option String) :
    (∀ results : List Row,
      generateTable title results latestVersion = "" ↔ results = []) ∧
    (∀ results : List Row, results ≠ [] →
      generateTable title results latestVersion = sectionHtml title results latestVersion) := by
  constructor
  · intro results
    constructor
    · intro h
      by_contra hne
      rw [generateTable, if_neg (by simpa [List.length_eq_zero] using hne)] at h
      exact sectionHtml_ne_empty _ _ _ h
    · rintro rfl
      rfl
  · intro results hne
    rw [generateTable, if_neg (by simpa [List.length_eq_zero] using hne)]

theorem c9_empty_group_no_section_witness :
    generateTable "NHS Prototype Kit" [] (some "4.3.0") = "" ∧
    generateTable "NHS Prototype Kit" [rowW "4.3.0"] (some "4.3.0") =
      sectionHtml "NHS Prototype Kit" [rowW "4.3.0"] (some "4.3.0") :=
  ⟨((c9_empty_group_no_section "NHS Prototype Kit" (some "4.3.0")).1 []).mpr rfl,
   (c9_empty_group_no_section "NHS Prototype Kit" (some "4.3.0")).2 [rowW "4.3.0"]
     (by simp)⟩

end KitMonitor
